import Mathlib

/-!
Shallow embedding of the MCP tool-registration micro-framework in
`model_context_protocol/fastapi.py` (class `FastAPIMCPServer`) and the one
tool registered by `app.py`.

JSON values are modelled by an inductive `Json`; handler signatures by lists
of `Param` records mirroring `inspect.signature(func).parameters`; the
pydantic model produced by `_build_model_for_callable` by a `Model` holding
one `FieldSpec` per parameter; the registry `self._tools` (a Python dict,
insertion ordered) by an association list; registration, payload validation,
dispatch (`call_tool`) and discovery (`list_tools`) by the functions below.
-/

set_option autoImplicit false

namespace MCP

/-- JSON values as exchanged over HTTP.  Numbers are restricted to integers,
which is all the claims exercise. -/
inductive Json where
  | null
  | bool (b : Bool)
  | num (n : Int)
  | str (s : String)
  | arr (xs : List Json)
  | obj (fields : List (String × Json))

/-- An incoming request body: a JSON object, i.e. an ordered mapping from
property name to value. -/
abbrev Payload := List (String × Json)

/-- Python dict / pydantic-style key lookup on an association list:
the first entry whose key equals `n`. -/
def getKey {α : Type} : List (String × α) → String → Option α
  | [], _ => none
  | kv :: rest, n => if kv.1 = n then some kv.2 else getKey rest n

/-- Python membership test `name in dict`. -/
def containsKey {α : Type} (l : List (String × α)) (n : String) : Bool :=
  (getKey l n).isSome

/-- Number of entries stored under key `n`. -/
def countKey {α : Type} (l : List (String × α)) (n : String) : Nat :=
  (l.filter (fun kv => kv.1 == n)).length

/-- The parameter type annotations occurring in this project:
`int`, `str`, `Optional[str]`, and unannotated (`Any`). -/
inductive PType where
  | tInt
  | tStr
  | tOptStr
  | tAny
deriving DecidableEq

/-- Whether a JSON value is accepted by pydantic for a field of the given
annotation (no coercion is modelled; the claims only use exactly-typed
values). -/
def checkType : PType → Json → Bool
  | .tAny, _ => true
  | .tInt, .num _ => true
  | .tInt, _ => false
  | .tStr, .str _ => true
  | .tStr, _ => false
  | .tOptStr, .str _ => true
  | .tOptStr, .null => true
  | .tOptStr, _ => false

/-- The kinds of `inspect.Parameter`. -/
inductive ParamKind where
  | positionalOnly
  | positionalOrKeyword
  | keywordOnly
  | varPositional
  | varKeyword
deriving DecidableEq

/-- One parameter of a handler signature, as seen by `inspect.signature`:
its name, kind, annotation, and default (`none` models
`inspect.Signature.empty`, i.e. no default). -/
structure Param where
  name : String
  kind : ParamKind
  type : PType
  default : Option Json

/-- The check `parameter.kind in {parameter.VAR_POSITIONAL, parameter.VAR_KEYWORD}`. -/
def Param.isVarArg (q : Param) : Bool :=
  match q.kind with
  | .varPositional => true
  | .varKeyword => true
  | _ => false

/-- A handler signature: the ordered parameter list of the callable. -/
structure HandlerSig where
  params : List Param

/-- Does the signature declare a variadic parameter anywhere? -/
def hasVarArgs (sig : HandlerSig) : Bool :=
  sig.params.any Param.isVarArg

/-- One field of the pydantic model built by `_build_model_for_callable`:
the annotation and the default (`none` models the required marker `...`). -/
structure FieldSpec where
  type : PType
  default : Option Json

/-- The pydantic model produced by `create_model(model_name, **fields)`:
its name and its ordered fields. -/
structure Model where
  name : String
  fields : List (String × FieldSpec)

/-- Python `str.title()` on the characters of a string: the first letter of
each alphabetic run is uppercased, the rest lowercased. -/
def pyTitleGo : List Char → Bool → List Char
  | [], _ => []
  | c :: rest, prevAlpha =>
    (if c.isAlpha then (if prevAlpha then c.toLower else c.toUpper) else c)
      :: pyTitleGo rest c.isAlpha

/-- Python `str.title()`. -/
def pyTitle (s : String) : String :=
  String.mk (pyTitleGo s.data false)

/-- Python `s.replace('_', '')`: drop every underscore. -/
def dropUnderscores (s : String) : String :=
  String.mk (s.data.filter (fun c => c ≠ '_'))

/-- The model name `f"{name.title().replace('_', '')}ToolInput"`. -/
def modelNameFor (name : String) : String :=
  dropUnderscores (pyTitle name) ++ "ToolInput"

/-- The message of the `TypeError` raised on a variadic parameter. -/
def varArgsMsg : String := "Var-args are not supported for MCP tool registration"

/-- The loop body of `_build_model_for_callable`: walk the parameters in
order, rejecting the first variadic one, otherwise collecting
`fields[parameter_name] = (annotation, default)`. -/
def buildFields : List Param → Except String (List (String × FieldSpec))
  | [] => Except.ok []
  | q :: rest =>
    if q.isVarArg then Except.error varArgsMsg
    else
      match buildFields rest with
      | Except.error e => Except.error e
      | Except.ok fs => Except.ok ((q.name, ⟨q.type, q.default⟩) :: fs)

/-- The helper `_build_model_for_callable(name, func)`: derive the pydantic request
model from the handler signature, or raise `TypeError` on var-args. -/
def buildModel (name : String) (sig : HandlerSig) : Except String Model :=
  match buildFields sig.params with
  | Except.error e => Except.error e
  | Except.ok fs => Except.ok ⟨modelNameFor name, fs⟩

/-- One pydantic validation error, as reported in FastAPI's 422 detail. -/
inductive ValErr where
  | missing (field : String)
  | badType (field : String)

/-- The JSON error object FastAPI renders for one validation error; its
`loc` names the offending body field. -/
def valErrJson : ValErr → Json
  | .missing n =>
      Json.obj [("type", Json.str "missing"),
                ("loc", Json.arr [Json.str "body", Json.str n]),
                ("msg", Json.str "Field required")]
  | .badType n =>
      Json.obj [("type", Json.str "type_error"),
                ("loc", Json.arr [Json.str "body", Json.str n]),
                ("msg", Json.str "Input should be of the declared type")]

/-- Pydantic validation of a payload against the model's fields, in field
order: a present property is type-checked and recorded as set; an absent
optional property is skipped (left unset, so `model_dump(exclude_unset=True)`
will omit it); an absent required property is a `missing` error.  Properties
of the payload that are not model fields are never consulted (lenient
decoding, pydantic's default `extra="ignore"` behaviour).  Returns the error
list and the set fields with their payload values. -/
def validateFields : List (String × FieldSpec) → Payload → List ValErr × Payload
  | [], _ => ([], [])
  | nf :: rest, p =>
    let r := validateFields rest p
    match getKey p nf.1 with
    | some v =>
      if checkType nf.2.type v then (r.1, (nf.1, v) :: r.2)
      else (ValErr.badType nf.1 :: r.1, r.2)
    | none =>
      match nf.2.default with
      | some _ => r
      | none => (ValErr.missing nf.1 :: r.1, r.2)

/-- Body validation as FastAPI performs it for `payload: model = Body(...)`,
combined with `payload.model_dump(exclude_unset=True)`: on success the
result is exactly the model fields that were present in the payload. -/
def validatePayload (m : Model) (p : Payload) : Except (List ValErr) Payload :=
  match validateFields m.fields p with
  | ([], data) => Except.ok data
  | (e :: es, _) => Except.error (e :: es)

/-- One model field is satisfied by the payload: present with a well-typed
value, or absent but optional. -/
def fieldOk (p : Payload) (nf : String × FieldSpec) : Bool :=
  match getKey p nf.1 with
  | some v => checkType nf.2.type v
  | none => nf.2.default.isSome

/-- The payload validates against the model. -/
def payloadValid (m : Model) (p : Payload) : Bool :=
  m.fields.all (fieldOk p)

/-- Outcome of running the handler body `func(**data)` (awaited if needed):
a value, a raised `TypeError`, or a raised `HTTPException` carrying its own
status and detail. -/
inductive HandlerResult where
  | ok (v : Json)
  | typeError (msg : String)
  | httpError (status : Nat) (detail : String)

/-- A handler's behaviour on the filtered keyword arguments it receives. -/
abbrev Handler := Payload → HandlerResult

/-- The HTTP-level outcome of one tool invocation. -/
inductive HttpOutcome where
  | success (body : Json)
  | error (status : Nat) (detail : Json)

/-- How `call_tool` maps the handler outcome to HTTP: a `TypeError` becomes
`HTTPException(status_code=400, detail=str(exc))`; an `HTTPException`
raised by the handler propagates unchanged; a value is returned as-is. -/
def handlerOutcome : HandlerResult → HttpOutcome
  | .ok v => HttpOutcome.success v
  | .typeError msg => HttpOutcome.error 400 (Json.str msg)
  | .httpError s d => HttpOutcome.error s (Json.str d)

/-- The per-tool endpoint `call_tool`: FastAPI first validates the body
against the tool's model (failure is a 422 whose detail lists the errors);
then `data = payload.model_dump(exclude_unset=True)` and `func(**data)`. -/
def callTool (m : Model) (h : Handler) (p : Payload) : HttpOutcome :=
  match validatePayload m p with
  | Except.error errs => HttpOutcome.error 422 (Json.arr (errs.map valErrJson))
  | Except.ok data => handlerOutcome (h data)

/-- Python keyword-argument binding of `func(**kwargs)` against the
parameter list: each parameter takes its value from `kwargs` if present,
else its own declared default, else the call raises `TypeError`. -/
def bindParams : List Param → Payload → Except String Payload
  | [], _ => Except.ok []
  | q :: rest, kwargs =>
    match bindParams rest kwargs with
    | Except.error e => Except.error e
    | Except.ok tail =>
      match getKey kwargs q.name with
      | some v => Except.ok ((q.name, v) :: tail)
      | none =>
        match q.default with
        | some d => Except.ok ((q.name, d) :: tail)
        | none => Except.error ("missing a required argument: " ++ q.name)

/-- The `_ToolDefinition` dataclass: metadata stored per registered tool.
The callable itself is represented by its signature; its runtime behaviour
is modelled separately by a `Handler` where a claim needs it. -/
structure ToolDefinition where
  name : String
  description : String
  endpoint : String
  handler : HandlerSig
  model : Model

/-- The registry `self._tools`: a Python dict from tool name to definition, insertion
ordered, modelled as an association list to which registration appends. -/
abbrev Registry := List (String × ToolDefinition)

/-- The errors the registration decorator can raise: the duplicate-name
`ValueError` and the var-args `TypeError` from `_build_model_for_callable`. -/
inductive RegError where
  | valueError (msg : String)
  | typeError (msg : String)

/-- The duplicate message `f"A tool named '{name}' is already registered"`. -/
def dupMsg (name : String) : String :=
  "A tool named \x27" ++ name ++ "\x27 is already registered"

/-- The body of the `tool(...)` decorator: the duplicate-name check comes
first; then the model is derived (which may raise); only then is the tool
appended to the registry with endpoint path `f"/tools/{name}"`.  The result
pairs the raised error (if any) with the registry state after the call. -/
def register (reg : Registry) (name description : String) (sig : HandlerSig) :
    Except RegError Unit × Registry :=
  if containsKey reg name then
    (Except.error (RegError.valueError (dupMsg name)), reg)
  else
    match buildModel name sig with
    | Except.error e => (Except.error (RegError.typeError e), reg)
    | Except.ok model =>
        (Except.ok (),
         reg ++ [(name, ⟨name, description, "/tools/" ++ name, sig, model⟩)])

/-- Python `s.replace('_', ' ')`: underscores to spaces. -/
def underscoresToSpaces (s : String) : String :=
  String.mk (s.data.map (fun c => if c = '_' then ' ' else c))

/-- pydantic's per-field title: the field name, underscores to spaces,
title-cased. -/
def fieldTitle (n : String) : String :=
  pyTitle (underscoresToSpaces n)

/-- The JSON-schema property descriptor pydantic emits for one model field:
a type tag (or an `anyOf` for `Optional[str]`), the declared default when
there is one, and a cosmetic per-property title. -/
def propertySchema (n : String) (fs : FieldSpec) : Json :=
  let typePart : List (String × Json) :=
    match fs.type with
    | .tInt => [("type", Json.str "integer")]
    | .tStr => [("type", Json.str "string")]
    | .tOptStr =>
        [("anyOf", Json.arr [Json.obj [("type", Json.str "string")],
                             Json.obj [("type", Json.str "null")]])]
    | .tAny => []
  let defaultPart : List (String × Json) :=
    match fs.default with
    | some d => [("default", d)]
    | none => []
  Json.obj (typePart ++ defaultPart ++ [("title", Json.str (fieldTitle n))])

/-- The names of the required fields (those whose default is `...`), in
field order, as pydantic lists them. -/
def requiredNames (m : Model) : List String :=
  (m.fields.filter (fun nf => nf.2.default.isNone)).map (fun nf => nf.1)

/-- The pydantic schema `self.model.model_json_schema()`: properties per field, the `required`
key only when some field is required, the model title, and `type: object`. -/
def modelJsonSchema (m : Model) : Json :=
  Json.obj
    ([("properties",
       Json.obj (m.fields.map (fun nf => (nf.1, propertySchema nf.1 nf.2))))]
     ++ (match requiredNames m with
         | [] => []
         | r :: rs => [("required", Json.arr ((r :: rs).map Json.str))])
     ++ [("title", Json.str m.name), ("type", Json.str "object")])

/-- Dictionary access `schema.get(key, default)` on a JSON object. -/
def schemaGet (j : Json) (key : String) (dflt : Json) : Json :=
  match j with
  | Json.obj fields => (getKey fields key).getD dflt
  | _ => dflt

/-- The `_ToolDefinition.schema` property: keep only `properties` and
`required` from the pydantic schema, under a fixed three-key object. -/
def toolDefSchema (m : Model) : Json :=
  Json.obj
    [("type", Json.str "object"),
     ("properties", schemaGet (modelJsonSchema m) "properties" (Json.obj [])),
     ("required", schemaGet (modelJsonSchema m) "required" (Json.arr []))]

/-- One entry of the discovery payload built by `list_tools`. -/
def toolEntry (basePath : String) (t : ToolDefinition) : Json :=
  Json.obj
    [("name", Json.str t.name),
     ("description", Json.str t.description),
     ("input_schema", toolDefSchema t.model),
     ("endpoint", Json.str (basePath ++ t.endpoint))]

/-- The route `GET {prefix}/tools`: the discovery response, one entry per tool in
registry (= registration) order. -/
def listToolsResponse (basePath : String) (reg : Registry) : Json :=
  Json.obj [("tools", Json.arr (reg.map (fun kv => toolEntry basePath kv.2)))]

/-- Registries reachable by registration: each entry is stored under its
tool's name and its endpoint path is `"/tools/" ++ name`. -/
abbrev WellFormedReg (reg : Registry) : Prop :=
  ∀ kv ∈ reg, kv.2.name = kv.1 ∧ kv.2.endpoint = "/tools/" ++ kv.2.name

/-!  Concrete instances used by the claims and witnesses. -/

/-- The signature of `list_purchase_requisitions` in `app.py`:
`top: int = 50, select: Optional[str] = None, filter: Optional[str] = None`. -/
def lprParams : List Param :=
  [⟨"top", ParamKind.positionalOrKeyword, PType.tInt, some (Json.num 50)⟩,
   ⟨"select", ParamKind.positionalOrKeyword, PType.tOptStr, some Json.null⟩,
   ⟨"filter", ParamKind.positionalOrKeyword, PType.tOptStr, some Json.null⟩]

/-- The handler signature of the app's one registered tool. -/
def lprSig : HandlerSig := ⟨lprParams⟩

/-- The signature of the spec's `echo(x: string)` scenario handler. -/
def echoSig : HandlerSig :=
  ⟨[⟨"x", ParamKind.positionalOrKeyword, PType.tStr, none⟩]⟩

/-- The request model derived for the echo handler. -/
def echoModel : Model :=
  ⟨modelNameFor "echo", [("x", ⟨PType.tStr, none⟩)]⟩

/-- The echo handler's behaviour: return `{"x": x}`. -/
def echoHandler : Handler := fun data =>
  match getKey data "x" with
  | some v => HandlerResult.ok (Json.obj [("x", v)])
  | none => HandlerResult.typeError "echo() missing 1 required positional argument: x"

/-- A handler that signals an upstream failure the way `_call_sap_api`
does: `HTTPException(status_code=503, detail="SAP API request failed: ...")`. -/
def sapDownHandler : Handler := fun _ =>
  HandlerResult.httpError 503 "SAP API request failed: upstream unavailable"

/-- A registry holding just the echo tool, registered on an empty registry. -/
def echoRegistry : Registry :=
  (register [] "echo" "Echo the input back" echoSig).2

/-- A variadic signature, `def bad(*args): ...`. -/
def varSig : HandlerSig :=
  ⟨[⟨"args", ParamKind.varPositional, PType.tAny, none⟩]⟩

/-- The request model derived for `list_purchase_requisitions`. -/
def lprModel : Model :=
  ⟨modelNameFor "list_purchase_requisitions",
   [("top", ⟨PType.tInt, some (Json.num 50)⟩),
    ("select", ⟨PType.tOptStr, some Json.null⟩),
    ("filter", ⟨PType.tOptStr, some Json.null⟩)]⟩

/-- The property table of `lprModel`'s discovery schema. -/
def lprProps : List (String × Json) :=
  [("top", propertySchema "top" ⟨PType.tInt, some (Json.num 50)⟩),
   ("select", propertySchema "select" ⟨PType.tOptStr, some Json.null⟩),
   ("filter", propertySchema "filter" ⟨PType.tOptStr, some Json.null⟩)]

/-!  Helper lemmas. -/

/-- A successful `buildFields` records each parameter's name, annotation and
default, in order. -/
theorem buildFields_ok_eq :
    ∀ (params : List Param) (fs : List (String × FieldSpec)),
      buildFields params = Except.ok fs →
      fs = params.map (fun q => (q.name, ⟨q.type, q.default⟩)) := by
  intro params
  induction params with
  | nil =>
    intro fs h
    simp only [buildFields, Except.ok.injEq] at h
    simp [← h]
  | cons q rest ih =>
    intro fs h
    cases hv : q.isVarArg with
    | true => simp [buildFields, hv] at h
    | false =>
      rcases hr : buildFields rest with e | fs'
      · simp [buildFields, hv, hr] at h
      · simp only [buildFields, hv, hr, Bool.false_eq_true, if_false,
          Except.ok.injEq] at h
        subst h
        simp [ih fs' hr]

/-- A signature with a variadic parameter makes `buildFields` fail with the
var-args `TypeError` message. -/
theorem buildFields_varArgs :
    ∀ (params : List Param), params.any Param.isVarArg = true →
      buildFields params = Except.error varArgsMsg := by
  intro params
  induction params with
  | nil => intro h; simp at h
  | cons q rest ih =>
    intro h
    cases hv : q.isVarArg with
    | true => simp [buildFields, hv]
    | false =>
      simp only [List.any_cons, hv, Bool.false_or] at h
      simp [buildFields, hv, ih h]

/-- Derivation via `buildModel` errors on every variadic signature. -/
theorem buildModel_varArgs (name : String) (sig : HandlerSig)
    (h : hasVarArgs sig = true) :
    buildModel name sig = Except.error varArgsMsg := by
  unfold buildModel
  rw [buildFields_varArgs sig.params h]

/-- A successful `buildModel` has one field per parameter, with the same
name, annotation and default, in order. -/
theorem buildModel_ok_fields (name : String) (sig : HandlerSig) (m : Model)
    (h : buildModel name sig = Except.ok m) :
    m.fields = sig.params.map (fun q => (q.name, ⟨q.type, q.default⟩)) := by
  unfold buildModel at h
  rcases hr : buildFields sig.params with e | fs
  · rw [hr] at h; exact absurd h (by simp)
  · rw [hr] at h
    have hm : m = ⟨modelNameFor name, fs⟩ := by
      cases h; rfl
    rw [hm]
    exact buildFields_ok_eq sig.params fs hr

/-- Lookup via `getKey` on a filtered list agrees with the original when
the filter keeps every entry with the looked-up key. -/
theorem getKey_filter {α : Type} (q : String × α → Bool) (n : String)
    (hq : ∀ v : α, q (n, v) = true) :
    ∀ p : List (String × α), getKey (p.filter q) n = getKey p n := by
  intro p
  induction p with
  | nil => rfl
  | cons kv rest ih =>
    rcases kv with ⟨k, v⟩
    by_cases hk : k = n
    · subst hk
      simp [List.filter_cons, hq v, getKey]
    · by_cases hkeep : q (k, v) = true
      · simp [List.filter_cons, hkeep, getKey, hk, ih]
      · rw [List.filter_cons, if_neg (by simp [hkeep])]
        rw [ih]
        simp [getKey, hk]

/-- Lookup via `getKey` finds an actual entry of the list. -/
theorem getKey_mem {α : Type} (n : String) (v : α) :
    ∀ l : List (String × α), getKey l n = some v → (n, v) ∈ l := by
  intro l
  induction l with
  | nil => intro h; simp [getKey] at h
  | cons kv rest ih =>
    rcases kv with ⟨k, v'⟩
    intro h
    by_cases hk : k = n
    · subst hk
      simp only [getKey, if_true, Option.some.injEq] at h
      subst h
      exact List.mem_cons_self _ _
    · simp only [getKey, hk, ite_false] at h
      exact List.mem_cons_of_mem _ (ih h)

/-- On success, `validateFields` returns exactly the model fields present in
the payload, with their payload values, in field order. -/
theorem validateFields_ok_data :
    ∀ (fields : List (String × FieldSpec)) (p data : Payload),
      validateFields fields p = ([], data) →
      data = fields.filterMap
        (fun nf => (getKey p nf.1).map (fun v => (nf.1, v))) := by
  intro fields
  induction fields with
  | nil =>
    intro p data h
    simp only [validateFields, Prod.mk.injEq] at h
    simp [← h.2]
  | cons nf rest ih =>
    intro p data h
    rcases hr : validateFields rest p with ⟨errs, d⟩
    rcases hp : getKey p nf.1 with _ | v
    · rcases hd : nf.2.default with _ | d0
      · simp [validateFields, hr, hp, hd, Prod.mk.injEq] at h
      · simp only [validateFields, hr, hp, hd, Prod.mk.injEq] at h
        rw [List.filterMap_cons, hp]
        exact h.2 ▸ ih p d (by rw [hr, h.1])
    · by_cases hc : checkType nf.2.type v = true
      · simp only [validateFields, hr, hp, hc, if_true, Prod.mk.injEq] at h
        rw [List.filterMap_cons, hp]
        rw [← h.2, ih p d (by rw [hr, h.1])]
        rfl
      · simp [validateFields, hr, hp, hc, Prod.mk.injEq] at h

/-- On success, every required field was present in the payload with a
well-typed value. -/
theorem validateFields_ok_required :
    ∀ (fields : List (String × FieldSpec)) (p data : Payload),
      validateFields fields p = ([], data) →
      ∀ nf ∈ fields, nf.2.default = none →
        ∃ v, getKey p nf.1 = some v ∧ checkType nf.2.type v = true := by
  intro fields
  induction fields with
  | nil => intro p data _ nf hmem; simp at hmem
  | cons nf0 rest ih =>
    intro p data h nf hmem hreq
    rcases hr : validateFields rest p with ⟨errs, d⟩
    have herrs : errs = [] := by
      rcases hp : getKey p nf0.1 with _ | v
      · rcases hd : nf0.2.default with _ | d0
        · simp [validateFields, hr, hp, hd, Prod.mk.injEq] at h
        · simp only [validateFields, hr, hp, hd, Prod.mk.injEq] at h
          exact h.1
      · by_cases hc : checkType nf0.2.type v = true
        · simp only [validateFields, hr, hp, hc, if_true, Prod.mk.injEq] at h
          exact h.1
        · simp [validateFields, hr, hp, hc, Prod.mk.injEq] at h
    rcases List.mem_cons.mp hmem with heq | hmem'
    · rcases hp : getKey p nf0.1 with _ | v
      · rcases hd : nf0.2.default with _ | d0
        · simp [validateFields, hr, hp, hd, Prod.mk.injEq] at h
        · rw [heq] at hreq; rw [hreq] at hd; cases hd
      · by_cases hc : checkType nf0.2.type v = true
        · exact ⟨v, by rw [heq]; exact hp, by rw [heq]; exact hc⟩
        · simp [validateFields, hr, hp, hc, Prod.mk.injEq] at h
    · exact ih p d (by rw [hr, herrs]) nf hmem' hreq

/-- A key that appears in no entry resolves to `none`. -/
theorem getKey_eq_none_of_not_mem {α : Type} (l : List (String × α)) (n : String)
    (h : n ∉ l.map Prod.fst) : getKey l n = none := by
  rcases hr : getKey l n with _ | v
  · rfl
  · exact absurd (List.mem_map.mpr ⟨(n, v), getKey_mem n v l hr, rfl⟩) h

/-- Lookup in the validated data: when the field names are distinct, a
model field resolves to its payload value, and anything else to `none`. -/
theorem getKey_dataOf (p : Payload) (n : String) :
    ∀ fields : List (String × FieldSpec),
      (fields.map Prod.fst).Nodup →
      getKey (fields.filterMap
        (fun nf => (getKey p nf.1).map (fun v => (nf.1, v)))) n
        = if containsKey fields n then getKey p n else none := by
  intro fields
  induction fields with
  | nil => intro _; simp [containsKey, getKey]
  | cons nf rest ih =>
    intro hnd
    rcases nf with ⟨k, fs⟩
    have hnd' : (rest.map Prod.fst).Nodup := (List.nodup_cons.mp hnd).2
    have hknotin : k ∉ rest.map Prod.fst := by
      have := (List.nodup_cons.mp hnd).1
      simpa using this
    by_cases hk : k = n
    · subst hk
      have hrest : containsKey rest k = false := by
        simp [containsKey, getKey_eq_none_of_not_mem rest k hknotin]
      rcases hp : getKey p k with _ | v
      · have hstep : (((k, fs) :: rest).filterMap
            (fun nf => (getKey p nf.1).map (fun v => (nf.1, v))))
            = rest.filterMap (fun nf => (getKey p nf.1).map (fun v => (nf.1, v))) := by
          simp [List.filterMap_cons, hp]
        rw [hstep, ih hnd']
        simp [containsKey, getKey, hp, hrest]
      · have hstep : (((k, fs) :: rest).filterMap
            (fun nf => (getKey p nf.1).map (fun v => (nf.1, v))))
            = (k, v) :: rest.filterMap (fun nf => (getKey p nf.1).map (fun v => (nf.1, v))) := by
          simp [List.filterMap_cons, hp]
        rw [hstep]
        simp [getKey, containsKey, hp]
    · rcases hp : getKey p k with _ | v
      · have hstep : (((k, fs) :: rest).filterMap
            (fun nf => (getKey p nf.1).map (fun v => (nf.1, v))))
            = rest.filterMap (fun nf => (getKey p nf.1).map (fun v => (nf.1, v))) := by
          simp [List.filterMap_cons, hp]
        rw [hstep, ih hnd']
        simp [containsKey, getKey, hk]
      · have hstep : (((k, fs) :: rest).filterMap
            (fun nf => (getKey p nf.1).map (fun v => (nf.1, v))))
            = (k, v) :: rest.filterMap (fun nf => (getKey p nf.1).map (fun v => (nf.1, v))) := by
          simp [List.filterMap_cons, hp]
        rw [hstep]
        simp only [getKey, hk, ite_false]
        rw [ih hnd']
        simp [containsKey, getKey, hk]

/-- A payload satisfying every field produces no validation errors. -/
theorem payloadValid_noErrors (p : Payload) :
    ∀ fields : List (String × FieldSpec),
      fields.all (fieldOk p) = true →
      (validateFields fields p).1 = [] := by
  intro fields
  induction fields with
  | nil => intro _; rfl
  | cons nf rest ih =>
    intro h
    simp only [List.all_cons, Bool.and_eq_true] at h
    rcases hp : getKey p nf.1 with _ | v
    · rcases hd : nf.2.default with _ | d0
      · exfalso
        have h1 := h.1
        simp only [fieldOk, hp, hd, Option.isSome_none] at h1
        cases h1
      · simp only [validateFields, hp, hd]
        exact ih h.2
    · have hc : checkType nf.2.type v = true := by
        have h1 := h.1
        simpa only [fieldOk, hp] using h1
      simp only [validateFields, hp, hc, if_true]
      exact ih h.2

/-- A required field absent from the payload contributes a `missing` error
naming it. -/
theorem validateFields_missing :
    ∀ (fields : List (String × FieldSpec)) (p : Payload) (n : String) (fs : FieldSpec),
      (n, fs) ∈ fields → fs.default = none → getKey p n = none →
      ValErr.missing n ∈ (validateFields fields p).1 := by
  intro fields
  induction fields with
  | nil => intro p n fs h; simp at h
  | cons nf rest ih =>
    intro p n fs hmem hreq habs
    rcases List.mem_cons.mp hmem with heq | hmem'
    · rw [← heq]
      simp only [validateFields, habs, hreq]
      exact List.mem_cons_self _ _
    · have hrec := ih p n fs hmem' hreq habs
      rcases hp : getKey p nf.1 with _ | v
      · rcases hd : nf.2.default with _ | d0
        · simp only [validateFields, hp, hd]
          exact List.mem_cons_of_mem _ hrec
        · simp only [validateFields, hp, hd]
          exact hrec
      · cases hc : checkType nf.2.type v with
        | true =>
          simp only [validateFields, hp, hc, if_true]
          exact hrec
        | false =>
          simp only [validateFields, hp, hc, Bool.false_eq_true, if_false]
          exact List.mem_cons_of_mem _ hrec

/-- Eliminate a successful `validatePayload` into its `validateFields` run. -/
theorem validatePayload_ok_elim (m : Model) (p data : Payload)
    (h : validatePayload m p = Except.ok data) :
    validateFields m.fields p = ([], data) := by
  rcases hr : validateFields m.fields p with ⟨errs, d⟩
  cases errs with
  | nil =>
    simp only [validatePayload, hr] at h
    cases h
    rfl
  | cons e es =>
    simp only [validatePayload, hr] at h
    cases h

/-- Introduce a successful `validatePayload` from its `validateFields` run. -/
theorem validatePayload_ok_intro (m : Model) (p data : Payload)
    (h : validateFields m.fields p = ([], data)) :
    validatePayload m p = Except.ok data := by
  simp only [validatePayload, h]

/-- Introduce a failing `validatePayload` from its `validateFields` run. -/
theorem validatePayload_error_intro (m : Model) (p : Payload) (e : ValErr)
    (es : List ValErr) (d : Payload)
    (h : validateFields m.fields p = (e :: es, d)) :
    validatePayload m p = Except.error (e :: es) := by
  simp only [validatePayload, h]

/-- A key stored nowhere is counted zero times. -/
theorem countKey_eq_zero {α : Type} (n : String) :
    ∀ l : List (String × α), containsKey l n = false → countKey l n = 0 := by
  intro l
  induction l with
  | nil => intro _; rfl
  | cons kv rest ih =>
    intro h
    by_cases hk : kv.1 = n
    · exfalso; simp [containsKey, getKey, hk] at h
    · have h' : containsKey rest n = false := by
        simpa [containsKey, getKey, hk] using h
      have hb : (kv.1 == n) = false := by simp [hk]
      simp only [countKey, List.filter_cons, hb, Bool.false_eq_true, if_false]
      exact ih h'

/-- In a duplicate-free registry, a stored key is counted exactly once. -/
theorem countKey_eq_one {α : Type} (n : String) :
    ∀ l : List (String × α), (l.map Prod.fst).Nodup → containsKey l n = true →
      countKey l n = 1 := by
  intro l
  induction l with
  | nil => intro _ h; simp [containsKey, getKey] at h
  | cons kv rest ih =>
    intro hnd h
    have hnd' : (rest.map Prod.fst).Nodup := (List.nodup_cons.mp hnd).2
    have hknotin : kv.1 ∉ rest.map Prod.fst := by
      have := (List.nodup_cons.mp hnd).1
      simpa using this
    by_cases hk : kv.1 = n
    · have hrest : containsKey rest n = false := by
        rw [← hk]
        simp [containsKey, getKey_eq_none_of_not_mem rest kv.1 hknotin]
      have hb : (kv.1 == n) = true := by simp [hk]
      simp only [countKey, List.filter_cons, hb, if_true, List.length_cons]
      have := countKey_eq_zero n rest hrest
      simp only [countKey] at this
      rw [this]
    · have h' : containsKey rest n = true := by
        simpa [containsKey, getKey, hk] using h
      have hb : (kv.1 == n) = false := by simp [hk]
      simp only [countKey, List.filter_cons, hb, Bool.false_eq_true, if_false]
      have := ih hnd' h'
      simpa only [countKey] using this

/-- Python call binding succeeds when every defaultless parameter has a
keyword argument, and each parameter gets its argument value if present,
else its own default. -/
theorem bindParams_ok_of (data : Payload) :
    ∀ params : List Param,
      (∀ q ∈ params, q.default = none → (getKey data q.name).isSome = true) →
      bindParams params data = Except.ok (params.map (fun q =>
        (q.name, (getKey data q.name).getD (q.default.getD Json.null)))) := by
  intro params
  induction params with
  | nil => intro _; rfl
  | cons q rest ih =>
    intro h
    have hrest := ih (fun q' hq' => h q' (List.mem_cons_of_mem _ hq'))
    rcases hp : getKey data q.name with _ | v
    · rcases hd : q.default with _ | d
      · exfalso
        have := h q (List.mem_cons_self _ _) hd
        rw [hp] at this
        simp at this
      · simp only [bindParams, hrest, hp, hd, List.map_cons]
        simp [hp, hd]
    · simp only [bindParams, hrest, hp, List.map_cons]
      simp [hp]

/-- Lookup in an argument list keyed by distinct parameter names. -/
theorem getKey_map_params (f : Param → Json) :
    ∀ (params : List Param) (q : Param),
      (params.map Param.name).Nodup → q ∈ params →
      getKey (params.map (fun q' => (q'.name, f q'))) q.name = some (f q) := by
  intro params
  induction params with
  | nil => intro q _ hmem; simp at hmem
  | cons q0 rest ih =>
    intro q hnd hmem
    have hnd' : (rest.map Param.name).Nodup := (List.nodup_cons.mp hnd).2
    have hnotin : q0.name ∉ rest.map Param.name := by
      have := (List.nodup_cons.mp hnd).1
      simpa using this
    rcases List.mem_cons.mp hmem with heq | hmem'
    · subst heq
      simp [getKey]
    · have hne : q0.name ≠ q.name := by
        intro he
        exact hnotin (he ▸ List.mem_map.mpr ⟨q, hmem', rfl⟩)
      simp only [List.map_cons, getKey, hne, ite_false]
      exact ih q hnd' hmem'

/-- An entry of the list makes `containsKey` true for its key. -/
theorem containsKey_of_mem {α : Type} :
    ∀ (l : List (String × α)) (kv : String × α), kv ∈ l →
      containsKey l kv.1 = true := by
  intro l
  induction l with
  | nil => intro kv h; simp at h
  | cons kv0 rest ih =>
    intro kv h
    by_cases hk : kv0.1 = kv.1
    · simp [containsKey, getKey, hk]
    · rcases List.mem_cons.mp h with heq | hmem
      · exact absurd (by rw [heq]) hk
      · simpa [containsKey, getKey, hk] using ih kv hmem

/-- Validation only consults the payload at the model's field names. -/
theorem validateFields_congr_payload :
    ∀ (fields : List (String × FieldSpec)) (p p' : Payload),
      (∀ nf ∈ fields, getKey p' nf.1 = getKey p nf.1) →
      validateFields fields p' = validateFields fields p := by
  intro fields
  induction fields with
  | nil => intro p p' _; rfl
  | cons nf rest ih =>
    intro p p' hpp
    have hh := hpp nf (List.mem_cons_self _ _)
    have ht := ih p p' (fun nf' h' => hpp nf' (List.mem_cons_of_mem _ h'))
    simp only [validateFields, hh, ht]

/-- Payloads with equal validation results get equal dispatch outcomes. -/
theorem callTool_congr_payload (m : Model) (h : Handler) (p p' : Payload)
    (he : validateFields m.fields p' = validateFields m.fields p) :
    callTool m h p' = callTool m h p := by
  unfold callTool validatePayload
  rw [he]

/-!  The claims. -/

/-- C2: with a tool already stored under `name`, a second registration under
that name raises the duplicate-name `ValueError` and leaves the registry
state identical, still containing exactly one tool under `name`, the first
registration's definition unchanged. -/
theorem c2_duplicate_registration_leaves_registry_unchanged
    (reg : Registry) (name d : String) (sig : HandlerSig) (td : ToolDefinition)
    (hnd : (reg.map Prod.fst).Nodup)
    (h : getKey reg name = some td) :
    register reg name d sig = (Except.error (RegError.valueError (dupMsg name)), reg)
    ∧ getKey (register reg name d sig).2 name = some td
    ∧ countKey (register reg name d sig).2 name = 1 := by
  have hc : containsKey reg name = true := by simp [containsKey, h]
  have hreg : register reg name d sig
      = (Except.error (RegError.valueError (dupMsg name)), reg) := by
    simp [register, hc]
  refine ⟨hreg, ?_, ?_⟩
  · rw [hreg]; exact h
  · rw [hreg]; exact countKey_eq_one name reg hnd hc

/-- C2 witness: re-registering `"echo"` on the echo registry fails with the
duplicate error and leaves the registry with its single original tool. -/
theorem c2_witness :
    register echoRegistry "echo" "dup" echoSig
      = (Except.error (RegError.valueError (dupMsg "echo")), echoRegistry)
    ∧ getKey (register echoRegistry "echo" "dup" echoSig).2 "echo"
      = some ⟨"echo", "Echo the input back", "/tools/echo", echoSig,
             ⟨modelNameFor "echo", [("x", ⟨PType.tStr, none⟩)]⟩⟩
    ∧ countKey (register echoRegistry "echo" "dup" echoSig).2 "echo" = 1 :=
  c2_duplicate_registration_leaves_registry_unchanged echoRegistry "echo" "dup"
    echoSig _ (by decide) rfl

/-- C3: registering a handler with a variadic parameter fails at
registration time with the var-args `TypeError`, the registry is unchanged
and the tool is not added, so no request can ever reach it. -/
theorem c3_varargs_rejected_at_registration
    (reg : Registry) (name d : String) (sig : HandlerSig)
    (hv : hasVarArgs sig = true)
    (hfresh : containsKey reg name = false) :
    register reg name d sig = (Except.error (RegError.typeError varArgsMsg), reg)
    ∧ containsKey (register reg name d sig).2 name = false := by
  have hb := buildModel_varArgs name sig hv
  have hreg : register reg name d sig
      = (Except.error (RegError.typeError varArgsMsg), reg) := by
    simp [register, hfresh, hb]
  exact ⟨hreg, by rw [hreg]; exact hfresh⟩

/-- C3 witness: registering `bad(*args)` on the empty registry raises the
var-args `TypeError` and stores nothing. -/
theorem c3_witness :
    register [] "bad" "d" varSig
      = (Except.error (RegError.typeError varArgsMsg), [])
    ∧ containsKey (register [] "bad" "d" varSig).2 "bad" = false :=
  c3_varargs_rejected_at_registration [] "bad" "d" varSig (by decide) (by decide)

/-- C10: the duplicate-name check precedes signature validation: over an
occupied name, even a variadic handler fails with the duplicate-name
`ValueError` (not the `TypeError` its schema derivation would raise) and
the registry is unchanged. -/
theorem c10_duplicate_check_precedes_signature_validation
    (reg : Registry) (name d : String) (sig : HandlerSig) (td : ToolDefinition)
    (h : getKey reg name = some td) (hv : hasVarArgs sig = true) :
    register reg name d sig = (Except.error (RegError.valueError (dupMsg name)), reg)
    ∧ buildModel name sig = Except.error varArgsMsg := by
  have hc : containsKey reg name = true := by simp [containsKey, h]
  exact ⟨by simp [register, hc], buildModel_varArgs name sig hv⟩

/-- C10 witness: registering a variadic handler under the occupied name
`"echo"` fails with the duplicate error, though its schema derivation
would raise. -/
theorem c10_witness :
    register echoRegistry "echo" "d" varSig
      = (Except.error (RegError.valueError (dupMsg "echo")), echoRegistry)
    ∧ buildModel "echo" varSig = Except.error varArgsMsg :=
  c10_duplicate_check_precedes_signature_validation echoRegistry "echo" "d"
    varSig _ rfl (by decide)

/-- C6: a structured `HTTPException` raised by the handler propagates
through `call_tool` unchanged: the response carries the handler's own
status and detail, not a generic 500. -/
theorem c6_handler_http_error_propagates
    (m : Model) (h : Handler) (p data : Payload) (status : Nat) (detail : String)
    (hv : validatePayload m p = Except.ok data)
    (hh : h data = HandlerResult.httpError status detail) :
    callTool m h p = HttpOutcome.error status (Json.str detail) := by
  simp [callTool, hv, handlerOutcome, hh]

/-- C6 witness: a handler raising a 503 upstream error yields a 503
response with that message. -/
theorem c6_witness :
    callTool echoModel sapDownHandler [("x", Json.str "hi")]
      = HttpOutcome.error 503 (Json.str "SAP API request failed: upstream unavailable") :=
  c6_handler_http_error_propagates echoModel sapDownHandler
    [("x", Json.str "hi")] [("x", Json.str "hi")] 503
    "SAP API request failed: upstream unavailable" rfl rfl

/-- C7: a `TypeError` raised when invoking the handler with the filtered
keyword arguments is mapped to HTTP 400 with the underlying message as
detail. -/
theorem c7_type_error_maps_to_400
    (m : Model) (h : Handler) (p data : Payload) (msg : String)
    (hv : validatePayload m p = Except.ok data)
    (hh : h data = HandlerResult.typeError msg) :
    callTool m h p = HttpOutcome.error 400 (Json.str msg) := by
  simp [callTool, hv, handlerOutcome, hh]

/-- C7 witness: the echo handler invoked without its argument raises a
`TypeError` that surfaces as a 400 with the message as detail. -/
theorem c7_witness :
    callTool ⟨"EmptyToolInput", []⟩ echoHandler []
      = HttpOutcome.error 400
          (Json.str "echo() missing 1 required positional argument: x") :=
  c7_type_error_maps_to_400 ⟨"EmptyToolInput", []⟩ echoHandler [] []
    "echo() missing 1 required positional argument: x" rfl rfl

/-- C1: a payload containing every required field (with any subset of
optional fields) passes validation and dispatches to the handler; a payload
missing any required field fails validation with a client error whose
detail names the missing field, and the handler is never invoked — the
outcome is the same for every handler. -/
theorem c1_required_field_validation (m : Model) (h : Handler) (p : Payload) :
    (payloadValid m p = true →
      ∃ data, validatePayload m p = Except.ok data
        ∧ callTool m h p = handlerOutcome (h data))
    ∧ (∀ (n : String) (fs : FieldSpec), (n, fs) ∈ m.fields →
        fs.default = none → getKey p n = none →
        ∃ errs, validatePayload m p = Except.error errs
          ∧ ValErr.missing n ∈ errs
          ∧ valErrJson (ValErr.missing n) ∈ errs.map valErrJson
          ∧ callTool m h p = HttpOutcome.error 422 (Json.arr (errs.map valErrJson))
          ∧ ∀ h' : Handler, callTool m h' p = callTool m h p) := by
  constructor
  · intro hvalid
    rcases hr : validateFields m.fields p with ⟨errs, data⟩
    have herrs : errs = [] := by
      have := payloadValid_noErrors p m.fields hvalid
      rw [hr] at this
      exact this
    subst herrs
    have hok := validatePayload_ok_intro m p data hr
    exact ⟨data, hok, by simp [callTool, hok]⟩
  · intro n fs hmem hreq habs
    have hmiss := validateFields_missing m.fields p n fs hmem hreq habs
    rcases hr : validateFields m.fields p with ⟨errs, d⟩
    rw [hr] at hmiss
    cases errs with
    | nil => simp at hmiss
    | cons e es =>
      have herr := validatePayload_error_intro m p e es d hr
      refine ⟨e :: es, herr, hmiss, List.mem_map.mpr ⟨_, hmiss, rfl⟩, ?_, ?_⟩
      · simp [callTool, herr]
      · intro h'
        simp [callTool, herr]

/-- C1 witness: for the echo tool, `{"x": "hi"}` dispatches to the handler,
and `{}` fails validation with a 422 naming `x`, independently of the
handler. -/
theorem c1_witness :
    (∃ data, validatePayload echoModel [("x", Json.str "hi")] = Except.ok data
      ∧ callTool echoModel echoHandler [("x", Json.str "hi")]
          = handlerOutcome (echoHandler data))
    ∧ (∃ errs, validatePayload echoModel [] = Except.error errs
        ∧ ValErr.missing "x" ∈ errs
        ∧ valErrJson (ValErr.missing "x") ∈ errs.map valErrJson
        ∧ callTool echoModel echoHandler []
            = HttpOutcome.error 422 (Json.arr (errs.map valErrJson))
        ∧ ∀ h' : Handler, callTool echoModel h' []
            = callTool echoModel echoHandler []) :=
  ⟨(c1_required_field_validation echoModel echoHandler [("x", Json.str "hi")]).1
      (by decide),
   (c1_required_field_validation echoModel echoHandler []).2 "x"
      ⟨PType.tStr, none⟩ (List.mem_cons_self _ _) rfl rfl⟩

/-- C4: under a successful validation, optional properties absent from the
payload are omitted from the handler's keyword arguments, so Python call
binding gives them the handler's own declared default, while properties
present in the payload — an explicit `null` included — reach the handler
with exactly their payload value. -/
theorem c4_absent_optionals_omitted_defaults_apply
    (name : String) (sig : HandlerSig) (m : Model) (p data : Payload)
    (hnd : (sig.params.map Param.name).Nodup)
    (hm : buildModel name sig = Except.ok m)
    (hv : validatePayload m p = Except.ok data) :
    (∀ (n : String) (v : Json), containsKey m.fields n = true →
      getKey p n = some v → getKey data n = some v)
    ∧ (∀ q ∈ sig.params, getKey p q.name = none →
        getKey data q.name = none
        ∧ ∀ d, q.default = some d →
            ∃ args, bindParams sig.params data = Except.ok args
              ∧ getKey args q.name = some d) := by
  have hfields : m.fields = sig.params.map (fun q => (q.name, ⟨q.type, q.default⟩)) :=
    buildModel_ok_fields name sig m hm
  have hndf : (m.fields.map Prod.fst).Nodup := by
    rw [hfields, List.map_map]
    exact hnd
  have hdata : data = m.fields.filterMap
      (fun nf => (getKey p nf.1).map (fun v => (nf.1, v))) :=
    validateFields_ok_data m.fields p data (validatePayload_ok_elim m p data hv)
  have hlook : ∀ n : String, getKey data n
      = if containsKey m.fields n then getKey p n else none := by
    intro n
    rw [hdata]
    exact getKey_dataOf p n m.fields hndf
  constructor
  · intro n v hc hp
    rw [hlook n, hc]
    simp [hp]
  · intro q hq habs
    have hcmem : containsKey m.fields q.name = true := by
      have : ((q.name, (⟨q.type, q.default⟩ : FieldSpec)) : String × FieldSpec)
          ∈ m.fields := by
        rw [hfields]
        exact List.mem_map.mpr ⟨q, hq, rfl⟩
      simpa using containsKey_of_mem m.fields _ this
    have hdnone : getKey data q.name = none := by
      rw [hlook q.name, hcmem]
      simp [habs]
    refine ⟨hdnone, ?_⟩
    intro d hd
    have hbind := bindParams_ok_of data sig.params ?_
    · refine ⟨_, hbind, ?_⟩
      rw [getKey_map_params
        (fun q' => (getKey data q'.name).getD (q'.default.getD Json.null))
        sig.params q hnd hq]
      simp [hdnone, hd]
    · intro q' hq' hreq
      have hfmem : ((q'.name, (⟨q'.type, q'.default⟩ : FieldSpec)) : String × FieldSpec)
          ∈ m.fields := by
        rw [hfields]
        exact List.mem_map.mpr ⟨q', hq', rfl⟩
      rcases validateFields_ok_required m.fields p data
          (validatePayload_ok_elim m p data hv) _ hfmem (by simpa using hreq)
        with ⟨v, hvp, _⟩
      have hcmem' : containsKey m.fields q'.name = true := by
        simpa using containsKey_of_mem m.fields _ hfmem
      rw [hlook q'.name, hcmem']
      simp only at hvp
      simp [hvp]

/-- C4 witness: for the purchase-requisition tool, payload
`{"top": 5, "select": null}` passes `top` and the explicit null `select`
through unchanged, while the absent `filter` is omitted and bound to its
declared default `None`. -/
theorem c4_witness :
    (getKey [("top", Json.num 5), ("select", Json.null)] "top" = some (Json.num 5) →
      getKey ((validatePayload lprModel
          [("top", Json.num 5), ("select", Json.null)]).toOption.getD []) "top"
        = some (Json.num 5))
    ∧ getKey ((validatePayload lprModel
          [("top", Json.num 5), ("select", Json.null)]).toOption.getD []) "filter" = none
    ∧ ∃ args, bindParams lprParams ((validatePayload lprModel
          [("top", Json.num 5), ("select", Json.null)]).toOption.getD [])
        = Except.ok args ∧ getKey args "filter" = some Json.null := by
  have h := c4_absent_optionals_omitted_defaults_apply
    "list_purchase_requisitions" lprSig lprModel
    [("top", Json.num 5), ("select", Json.null)]
    [("top", Json.num 5), ("select", Json.null)]
    (by decide) rfl rfl
  have h2 := h.2 ⟨"filter", ParamKind.positionalOrKeyword, PType.tOptStr,
      some Json.null⟩ (by simp [lprSig, lprParams]) rfl
  exact ⟨fun hp => h.1 "top" (Json.num 5) (by decide) hp,
         h2.1, h2.2 Json.null rfl⟩

/-- C5: properties not in the tool's schema are ignored: dispatch gives
the same outcome as for the payload with the unknown properties removed,
and on success the handler receives only schema properties. -/
theorem c5_unknown_properties_ignored (m : Model) (h : Handler) (p : Payload) :
    callTool m h p = callTool m h (p.filter (fun kv => containsKey m.fields kv.1))
    ∧ (∀ data, validatePayload m p = Except.ok data →
        ∀ kv ∈ data, containsKey m.fields kv.1 = true) := by
  constructor
  · refine (callTool_congr_payload m h p _ ?_).symm
    refine validateFields_congr_payload m.fields p _ ?_
    intro nf hnf
    refine getKey_filter _ nf.1 ?_ p
    intro v
    exact containsKey_of_mem m.fields nf hnf
  · intro data hv kv hkv
    have hdata := validateFields_ok_data m.fields p data
      (validatePayload_ok_elim m p data hv)
    rw [hdata] at hkv
    rcases List.mem_filterMap.mp hkv with ⟨nf, hnf, hf⟩
    rcases hp : getKey p nf.1 with _ | v
    · rw [hp] at hf; cases hf
    · rw [hp] at hf
      cases hf
      simpa using containsKey_of_mem m.fields nf hnf

/-- C5 witness: for the echo tool, `{"x": "hi", "y": 1}` dispatches like
`{"x": "hi"}`, and the validated data contains only schema properties. -/
theorem c5_witness :
    callTool echoModel echoHandler [("x", Json.str "hi"), ("y", Json.num 1)]
      = callTool echoModel echoHandler
          ([("x", Json.str "hi"), ("y", Json.num 1)].filter
            (fun kv => containsKey echoModel.fields kv.1))
    ∧ (∀ kv ∈ [("x", Json.str "hi")], containsKey echoModel.fields kv.1 = true) :=
  ⟨(c5_unknown_properties_ignored echoModel echoHandler
      [("x", Json.str "hi"), ("y", Json.num 1)]).1,
   (c5_unknown_properties_ignored echoModel echoHandler
      [("x", Json.str "hi"), ("y", Json.num 1)]).2 [("x", Json.str "hi")] rfl⟩

/-- C8: the discovery endpoint returns one entry per registered tool, in
registry (= registration) order, each of the form
`{name, description, input_schema, endpoint}` with
`endpoint = prefix ++ "/tools/" ++ name` and with `input_schema` an object
holding exactly the keys `type` (= `"object"`), `properties` and
`required` — the pydantic schema's title and definition tables are
dropped. -/
theorem c8_discovery_payload_shape (bp : String) (reg : Registry)
    (h : WellFormedReg reg) :
    listToolsResponse bp reg = Json.obj [("tools", Json.arr (reg.map (fun kv =>
      Json.obj
        [("name", Json.str kv.2.name),
         ("description", Json.str kv.2.description),
         ("input_schema", Json.obj
            [("type", Json.str "object"),
             ("properties",
              schemaGet (modelJsonSchema kv.2.model) "properties" (Json.obj [])),
             ("required",
              schemaGet (modelJsonSchema kv.2.model) "required" (Json.arr []))]),
         ("endpoint", Json.str (bp ++ ("/tools/" ++ kv.2.name)))])))] := by
  have hmap : reg.map (fun kv => toolEntry bp kv.2) = reg.map (fun kv =>
      Json.obj
        [("name", Json.str kv.2.name),
         ("description", Json.str kv.2.description),
         ("input_schema", Json.obj
            [("type", Json.str "object"),
             ("properties",
              schemaGet (modelJsonSchema kv.2.model) "properties" (Json.obj [])),
             ("required",
              schemaGet (modelJsonSchema kv.2.model) "required" (Json.arr []))]),
         ("endpoint", Json.str (bp ++ ("/tools/" ++ kv.2.name)))]) := by
    apply List.map_congr_left
    intro kv hkv
    have he := (h kv hkv).2
    simp [toolEntry, toolDefSchema, he]
  simp only [listToolsResponse, hmap]

/-- C8 witness: the discovery payload for the echo registry under the
default `/mcp` prefix. -/
theorem c8_witness :
    listToolsResponse "/mcp" echoRegistry
      = Json.obj [("tools", Json.arr (echoRegistry.map (fun kv =>
          Json.obj
            [("name", Json.str kv.2.name),
             ("description", Json.str kv.2.description),
             ("input_schema", Json.obj
                [("type", Json.str "object"),
                 ("properties",
                  schemaGet (modelJsonSchema kv.2.model) "properties" (Json.obj [])),
                 ("required",
                  schemaGet (modelJsonSchema kv.2.model) "required" (Json.arr []))]),
             ("endpoint", Json.str ("/mcp" ++ ("/tools/" ++ kv.2.name)))])))] :=
  c8_discovery_payload_shape "/mcp" echoRegistry (by decide)

/-- C9: the app's purchase-requisition tool (`top: int = 50`,
`select: Optional[str] = None`, `filter: Optional[str] = None`) derives a
schema with an empty `required` list and all three names among the
properties; payload `{}` leaves all three to their declared defaults, and
payload `{"top": 5}` overrides only `top`. -/
theorem c9_purchase_requisition_roundtrip :
    buildModel "list_purchase_requisitions" lprSig = Except.ok lprModel
    ∧ requiredNames lprModel = []
    ∧ schemaGet (toolDefSchema lprModel) "required" Json.null = Json.arr []
    ∧ schemaGet (toolDefSchema lprModel) "properties" Json.null = Json.obj lprProps
    ∧ lprProps.map Prod.fst = ["top", "select", "filter"]
    ∧ validatePayload lprModel [] = Except.ok []
    ∧ bindParams lprParams [] = Except.ok
        [("top", Json.num 50), ("select", Json.null), ("filter", Json.null)]
    ∧ validatePayload lprModel [("top", Json.num 5)] = Except.ok [("top", Json.num 5)]
    ∧ bindParams lprParams [("top", Json.num 5)] = Except.ok
        [("top", Json.num 5), ("select", Json.null), ("filter", Json.null)] :=
  ⟨rfl, rfl, rfl, rfl, rfl, rfl, rfl, rfl, rfl⟩

end MCP
